import Mathlib

/-!
Shallow embedding of the `parsec` Go package (gopar): a byte-oriented
parser-combinator library.  The embedding mirrors `parsec.go` definition by
definition:

* Go's mutable `*ParseState` becomes explicit state passing: a parser maps a
  `ParseState` to an outcome (success value or error) together with the state
  as it stands when the parser returns.
* Go's `(interface{}, error)` pair becomes the `Outcome` sum; the dynamic
  result values that actually flow through the library (nil, byte, string,
  slice) become the closed inductive `Value`.
* The mutually recursive combinators `Many`/`Many1` (and `ManyTill`) do not
  terminate for all argument parsers in Go (e.g. `Many(Return(x))` loops
  forever), so their embedding is step-indexed by fuel: `none` is the
  outcome of a run that does not return (divergence, or a Go panic from a
  failed type assertion); each unfolding of `Many1` consumes one unit.
* Go bytes are `Nat` (values < 256 in practice); the newline byte is 10.
-/

namespace Gopar

abbrev Byte := Nat

/-- `ParseState` from parsec.go: the source, the read position, the line. -/
structure ParseState where
  source : List Byte
  pos : Nat
  line : Nat
deriving DecidableEq, Repr

/-- `ParseErr` from parsec.go: a reason and the line it was raised on. -/
structure ParseErr where
  reason : String
  line : Nat
deriving DecidableEq, Repr

/-- The closed set of result payloads produced by the library: Go `nil`,
a byte, a string, or a slice of results. -/
inductive Value where
  | vnil : Value
  | byte (b : Byte) : Value
  | str (s : String) : Value
  | list (xs : List Value) : Value

/-- Go's `(interface{}, error)` return pair, with the convention that
exactly one side is meaningful. -/
inductive Outcome where
  | ok (v : Value) : Outcome
  | err (e : ParseErr) : Outcome

abbrev PResult := Outcome × ParseState

/-- A parser: Go `func(*ParseState) (interface{}, error)`.  `none` encodes a
run that never returns (divergence or panic). -/
abbrev Parser := ParseState → Option PResult

/-- Byte list of an ASCII string, standing for Go's `[]byte(s)`. -/
def bytes (s : String) : List Byte :=
  s.toList.map Char.toNat

/-- Rendering of a byte by Go's `%c` verb (ASCII range). -/
def charStr (c : Byte) : String :=
  String.singleton (Char.ofNat c)

/-- Rendering of a byte set by Go's `%s` verb on `string(set)`. -/
def setStr (set : List Byte) : String :=
  String.mk (set.map Char.ofNat)

/-- `(*ParseState) next` from parsec.go: if a byte remains and satisfies the
predicate, consume it (bumping `line` when it is a newline) and report
success; otherwise report failure without touching the state.  Returns the
byte inspected (`0` at end of input), the success flag, and the state. -/
def next (st : ParseState) (pred : Byte → Bool) : Byte × Bool × ParseState :=
  if h : st.pos < st.source.length then
    let c := st.source.get ⟨st.pos, h⟩
    if pred c then
      (c, true,
        { st with pos := st.pos + 1,
                  line := if c = 10 then st.line + 1 else st.line })
    else
      (c, false, st)
  else
    (0, false, st)

/-- `(*ParseState) trap`: an error tagged with the state's current line. -/
def trap (st : ParseState) (reason : String) : ParseErr :=
  ⟨reason, st.line⟩

/-- `Parser.Bind` from parsec.go. -/
def bind (p : Parser) (f : Value → Parser) : Parser := fun st =>
  match p st with
  | none => none
  | some (.err e, st') => some (.err e, st')
  | some (.ok x, st') => f x st'

/-- `Parser.Then` from parsec.go. -/
def Then (p1 p2 : Parser) : Parser := fun st =>
  match p1 st with
  | none => none
  | some (.err e, st') => some (.err e, st')
  | some (.ok _, st') => p2 st'

/-- `Return` from parsec.go. -/
def Return (x : Value) : Parser := fun st =>
  some (.ok x, st)

/-- `Fail` from parsec.go. -/
def Fail (msg : String) : Parser := fun st =>
  some (.err (trap st msg), st)

/-- `Either` from parsec.go: run `p1`; on success return its value; on a
failure that left the position where it started, run `p2` from the state as
`p1` left it; on a failure that moved the position, propagate it. -/
def Either (p1 p2 : Parser) : Parser := fun st =>
  match p1 st with
  | none => none
  | some (.ok x, st') => some (.ok x, st')
  | some (.err e, st') =>
    if st'.pos = st.pos then p2 st'
    else some (.err e, st')

/-- `Parser.Or` from parsec.go (method form of `Either`). -/
def OrP (p1 p2 : Parser) : Parser :=
  Either p1 p2

/-- `Try` from parsec.go: on failure restore `Pos` (and only `Pos`) to its
value before `p` ran, then propagate the failure. -/
def Try (p : Parser) : Parser := fun st =>
  match p st with
  | none => none
  | some (.ok x, st') => some (.ok x, st')
  | some (.err e, st') => some (.err e, { st' with pos := st.pos })

/-- `AnyChar` from parsec.go. -/
def AnyChar : Parser := fun st =>
  match next st (fun _ => true) with
  | (c, true, st') => some (.ok (.byte c), st')
  | (_, false, st') => some (.err (trap st' "Unexpected end of file"), st')

/-- The message Eof fails with when it finds a byte. -/
def eofFoundMsg (c : Byte) : String :=
  "Expected end of file but got \x27" ++ charStr c ++ "\x27"

/-- `Eof` from parsec.go: implemented with the same consume-if-true `next`
call as `AnyChar`, so when a byte is present it is consumed on the failure
path; at end of input it succeeds with the nil value. -/
def Eof : Parser := fun st =>
  match next st (fun _ => true) with
  | (c, true, st') => some (.err (trap st' (eofFoundMsg c)), st')
  | (_, false, st') => some (.ok .vnil, st')

/-- `Char` from parsec.go (named `CharP` because `Char` is taken in Lean). -/
def CharP (c : Byte) : Parser := fun st =>
  match next st (fun b => b == c) with
  | (x, true, st') => some (.ok (.byte x), st')
  | (_, false, st') =>
    some (.err (trap st' ("Expected \x27" ++ charStr c ++ "\x27")), st')

/-- `OneOf` from parsec.go. -/
def OneOf (set : List Byte) : Parser := fun st =>
  match next st (fun c => set.contains c) with
  | (x, true, st') => some (.ok (.byte x), st')
  | (x, false, st') =>
    some (.err (trap st'
      ("Expected one of \x27" ++ setStr set ++ "\x27 but got \x27"
        ++ charStr x ++ "\x27")), st')

/-- `NoneOf` from parsec.go. -/
def NoneOf (set : List Byte) : Parser := fun st =>
  match next st (fun c => !set.contains c) with
  | (x, true, st') => some (.ok (.byte x), st')
  | (x, false, st') =>
    some (.err (trap st' ("Unexpected \x27" ++ charStr x ++ "\x27")), st')

/-- The loop body of `String` from parsec.go: match the remaining literal
bytes one at a time; on the first mismatch set `Pos` back to `oldPos`
(leaving `Line` as it stands) and fail. -/
def stringLoop (s : String) (oldPos : Nat) : List Byte → Parser
  | [] => fun st => some (.ok (.str s), st)
  | c :: cs => fun st =>
    match next st (fun b => b == c) with
    | (_, true, st') => stringLoop s oldPos cs st'
    | (_, false, st') =>
      let stR : ParseState := { st' with pos := oldPos }
      some (.err (trap stR ("Expected \x27" ++ s ++ "\x27")), stR)

/-- `String` from parsec.go (named `StringP` because `String` is taken). -/
def StringP (s : String) : Parser := fun st =>
  stringLoop s st.pos (bytes s) st

/-- The byte contents of a result slice, when every element is a byte.
Go's `c.(byte)` assertion panics otherwise; that path yields `none`. -/
def asBytes : List Value → Option (List Byte)
  | [] => some []
  | .byte b :: rest => (asBytes rest).map (b :: ·)
  | _ :: _ => none

/-- The string built from a byte slice: Go `string(bs)` (ASCII range). -/
def strOf (bs : List Byte) : String :=
  String.mk (bs.map Char.ofNat)

/-- The continuation inside `Parser.ToString`: coerce the slice of bytes to
a string.  Go panics (here: no result) when the value is not a byte slice. -/
def toStringK (x : Value) : Parser :=
  match x with
  | .list xs =>
    match asBytes xs with
    | some bs => Return (.str (strOf bs))
    | none => fun _ => none
  | _ => fun _ => none

/-- `Parser.ToString` from parsec.go. -/
def ToString (p : Parser) : Parser :=
  bind p toStringK

/-- `appendx` from parsec.go: prepend `x` to the slice `xs`.  Go's
`xs.([]interface{})` assertion panics when `xs` is not a slice. -/
def appendx (x xs : Value) : Option Value :=
  match xs with
  | .list l => some (.list (x :: l))
  | _ => none

/-- Lift of `Return` over a value that may come from a panicking coercion. -/
def retOpt : Option Value → Parser
  | some v => Return v
  | none => fun _ => none

/-- `Many1` from parsec.go, step-indexed: each unfolding of the
`Many1`/`Many` recursion spends one unit of fuel; fuel 0 is divergence.
`Many(p)` is inlined as `Either (many1F p n) (Return (.list []))`,
exactly its definition `Many1(p).Or(Return([]interface{}{}))`.  Written
with `Nat.rec` so concrete runs reduce cheaply; `many1F_zero` and
`many1F_succ` below are its defining equations. -/
def many1F (p : Parser) : Nat → Parser :=
  Nat.rec (fun _ => none)
    (fun _ ih =>
      bind p (fun x =>
        bind (Either ih (Return (.list []))) (fun xs =>
          retOpt (appendx x xs))))

/-- `Many` from parsec.go, step-indexed. -/
def manyF (p : Parser) (n : Nat) : Parser :=
  Either (many1F p n) (Return (.list []))

/-- `ManyTill` from parsec.go, step-indexed on its recursion depth. -/
def manyTillF (p pend : Parser) : Nat → Parser :=
  Nat.rec (fun _ => none)
    (fun _ ih =>
      Either (Then (Try pend) (Return (.list [])))
        (bind p (fun x =>
          bind ih (fun xs =>
            retOpt (appendx x xs)))))

/-- `Skip` from parsec.go: `p.Then(Return(nil)).Or(Return(nil))` — run `p`
once, discard its value, and swallow a zero-consumption failure. -/
def Skip (p : Parser) : Parser :=
  OrP (Then p (Return .vnil)) (Return .vnil)

/-- `SkipMany` from parsec.go, step-indexed through `Many`. -/
def SkipManyF (p : Parser) (n : Nat) : Parser :=
  Skip (manyF p n)

/-- `Parser.Between` from parsec.go. -/
def Between (p start pend : Parser) : Parser :=
  Then start (bind p (fun x => Then pend (Return x)))

/-- `Parser.SepBy1` from parsec.go, step-indexed through `Many`. -/
def SepBy1F (p sep : Parser) (n : Nat) : Parser :=
  bind p (fun x =>
    bind (manyF (Then sep p) n) (fun xs =>
      retOpt (appendx x xs)))

/-- `Parser.SepBy` from parsec.go, step-indexed through `SepBy1`. -/
def SepByF (p sep : Parser) (n : Nat) : Parser :=
  OrP (SepBy1F p sep n) (Return (.list []))

/-- `Parser.Parse` from parsec.go: run from position 0, line 1. -/
def Parse (p : Parser) (source : List Byte) : Option PResult :=
  p ⟨source, 0, 1⟩

/-! The package-level derived parsers (the fueled ones are functions of the
fuel). -/

def Lowercase : Parser := OneOf (bytes "abcdefghijklmnopqrstuvwxyz")
def Uppercase : Parser := OneOf (bytes "ABCDEFGHIJKLMNOPQRSTUVWXYZ")
def Letter : Parser := Either Lowercase Uppercase
def Digit : Parser := OneOf (bytes "0123456789")
def Space : Parser := OneOf (bytes " \t")
def Spaces : Parser := Skip Space
def Newline : Parser := OneOf (bytes "\x0d\n")
def Eol : Parser := Either Eof Newline


/-- The state after consuming the byte `c` at the current position: the
position advances by one and the line is bumped when `c` is a newline. -/
def consumed (st : ParseState) (c : Byte) : ParseState :=
  { st with pos := st.pos + 1,
            line := if c = 10 then st.line + 1 else st.line }

/-- A parser that never fails having consumed input: every failure leaves
the position where the attempt began. -/
def FailsWithoutConsuming (p : Parser) : Prop :=
  ∀ st e st₁, p st = some (.err e, st₁) → st₁.pos = st.pos

/-- The parsers built from the library's primitives and combinators.
`bind` closes over an arbitrary Value-indexed family, which covers every
`Bind` continuation in the source; `divergeP` is the parser of a run that
never returns (fuel 0 of the recursive combinators, or a Go panic). -/
inductive Built : Parser → Prop where
  | ret (x : Value) : Built (Return x)
  | failP (msg : String) : Built (Fail msg)
  | anyChar : Built AnyChar
  | eofP : Built Eof
  | charP (c : Byte) : Built (CharP c)
  | oneOf (set : List Byte) : Built (OneOf set)
  | noneOf (set : List Byte) : Built (NoneOf set)
  | stringP (s : String) : Built (StringP s)
  | bindP (p : Parser) (f : Value → Parser) :
      Built p → (∀ x, Built (f x)) → Built (bind p f)
  | thenP (p1 p2 : Parser) : Built p1 → Built p2 → Built (Then p1 p2)
  | eitherP (p1 p2 : Parser) : Built p1 → Built p2 → Built (Either p1 p2)
  | tryP (p : Parser) : Built p → Built (Try p)
  | divergeP : Built (fun _ => none)

/-- The cursor facts every run of a built parser preserves: the source is
untouched, the final position stays within the source, and the line never
decreases. -/
def Good (p : Parser) : Prop :=
  ∀ st r st₁, st.pos ≤ st.source.length → p st = some (r, st₁) →
    st₁.source = st.source ∧ st₁.pos ≤ st₁.source.length ∧ st.line ≤ st₁.line

/-- The number of newline bytes strictly before a position. -/
def newlinesBefore (src : List Byte) (pos : Nat) : Nat :=
  ((src.take pos).filter (fun b => b == 10)).length

theorem many1F_zero (p : Parser) : many1F p 0 = fun _ => none := rfl

theorem many1F_succ (p : Parser) (n : Nat) :
    many1F p (n + 1)
      = bind p (fun x =>
          bind (Either (many1F p n) (Return (.list []))) (fun xs =>
            retOpt (appendx x xs))) := rfl

theorem manyTillF_succ (p pend : Parser) (n : Nat) :
    manyTillF p pend (n + 1)
      = Either (Then (Try pend) (Return (.list [])))
          (bind p (fun x =>
            bind (manyTillF p pend n) (fun xs =>
              retOpt (appendx x xs)))) := rfl

/-! ### Basic facts about the combinators -/

theorem either_of_ok {p1 : Parser} (p2 : Parser) {st : ParseState}
    {x : Value} {st' : ParseState} (h : p1 st = some (.ok x, st')) :
    Either p1 p2 st = some (.ok x, st') := by
  simp [Either, h]

theorem either_of_err_zero {p1 : Parser} (p2 : Parser) {st : ParseState}
    {e : ParseErr} {st' : ParseState} (h : p1 st = some (.err e, st'))
    (hpos : st'.pos = st.pos) :
    Either p1 p2 st = p2 st' := by
  simp [Either, h, hpos]

theorem either_of_err_moved {p1 : Parser} (p2 : Parser) {st : ParseState}
    {e : ParseErr} {st' : ParseState} (h : p1 st = some (.err e, st'))
    (hpos : st'.pos ≠ st.pos) :
    Either p1 p2 st = some (.err e, st') := by
  simp [Either, h, hpos]

theorem try_of_ok {p : Parser} {st : ParseState} {x : Value}
    {st' : ParseState} (h : p st = some (.ok x, st')) :
    Try p st = some (.ok x, st') := by
  simp [Try, h]

theorem try_of_err {p : Parser} {st : ParseState} {e : ParseErr}
    {st' : ParseState} (h : p st = some (.err e, st')) :
    Try p st = some (.err e, { st' with pos := st.pos }) := by
  simp [Try, h]

theorem next_of_lt {st : ParseState} (pred : Byte → Bool)
    (h : st.pos < st.source.length) (hp : pred st.source[st.pos] = true) :
    next st pred = (st.source[st.pos], true, consumed st st.source[st.pos]) := by
  simp [next, h, hp, consumed]

theorem eof_of_byte {st : ParseState} (h : st.pos < st.source.length) :
    Eof st = some (.err
      ⟨eofFoundMsg st.source[st.pos], (consumed st st.source[st.pos]).line⟩,
      consumed st st.source[st.pos]) := by
  unfold Eof
  rw [next_of_lt _ h rfl]
  rfl

theorem eof_of_end {st : ParseState} (h : st.source.length ≤ st.pos) :
    Eof st = some (.ok .vnil, st) := by
  unfold Eof
  have hlt : ¬ st.pos < st.source.length := Nat.not_lt.mpr h
  simp [next, hlt]

theorem next_cases (st : ParseState) (pred : Byte → Bool) :
    (next st pred).2.2.source = st.source
  ∧ st.line ≤ (next st pred).2.2.line
  ∧ ((next st pred).2.2 = st ∨
      (st.pos < st.source.length ∧ (next st pred).2.2.pos = st.pos + 1)) := by
  by_cases h : st.pos < st.source.length
  · by_cases hp : pred st.source[st.pos]
    · rw [next_of_lt pred h hp]
      refine ⟨rfl, ?_, Or.inr ⟨h, rfl⟩⟩
      simp only [consumed]
      split <;> omega
    · have hn : next st pred = (st.source[st.pos], false, st) := by
        simp [next, h, hp]
      rw [hn]
      exact ⟨rfl, le_refl _, Or.inl rfl⟩
  · have hn : next st pred = (0, false, st) := by
      simp [next, h]
    rw [hn]
    exact ⟨rfl, le_refl _, Or.inl rfl⟩

theorem next_false_state {st : ParseState} {pred : Byte → Bool}
    {x : Byte} {st₁ : ParseState} (h : next st pred = (x, false, st₁)) :
    st₁ = st := by
  unfold next at h
  by_cases hlt : st.pos < st.source.length
  · by_cases hp : pred st.source[st.pos]
    · simp [hlt, hp] at h
    · simp [hlt, hp] at h
      exact h.2.symm
  · simp [hlt] at h
    exact h.2.symm

/-- On every failure of the `String` matching loop the final position is
the saved `oldPos`, and the line counter keeps whatever increments the
consumed bytes produced. -/
theorem stringLoop_err (s : String) (oldPos : Nat) :
    ∀ (cs : List Byte) (st : ParseState) (e : ParseErr) (st₁ : ParseState),
      stringLoop s oldPos cs st = some (.err e, st₁) →
      st₁.pos = oldPos ∧ st.line ≤ st₁.line := by
  intro cs
  induction cs with
  | nil =>
    intro st e st₁ h
    simp [stringLoop] at h
  | cons c cs ih =>
    intro st e st₁ h
    unfold stringLoop at h
    rcases hn : next st (fun b => b == c) with ⟨x, b, st₂⟩
    rw [hn] at h
    cases b with
    | true =>
      have hrec := ih st₂ e st₁ h
      have hline := (next_cases st (fun b => b == c)).2.1
      rw [hn] at hline
      exact ⟨hrec.1, le_trans hline hrec.2⟩
    | false =>
      have hst : st₂ = st := next_false_state hn
      simp only [hst] at h
      have h2 : ({ st with pos := oldPos } : ParseState) = st₁ := by
        simpa [stringLoop] using congrArg (fun r => r.map Prod.snd) h
      rw [← h2]
      exact ⟨rfl, le_refl _⟩

theorem charP_fails_without_consuming (c : Byte) :
    FailsWithoutConsuming (CharP c) := by
  intro st e st₁ h
  unfold CharP at h
  rcases hn : next st (fun b => b == c) with ⟨x, b, st₂⟩
  rw [hn] at h
  cases b with
  | true => simp at h
  | false =>
    have hst : st₂ = st := next_false_state hn
    simp only [Option.some.injEq, Prod.mk.injEq] at h
    rw [← h.2, hst]

/-- When the argument parser only fails with zero consumption, every error
a terminating run of `Many1` returns is exactly the error of the first
application of the parser. -/
theorem many1F_err_first {p : Parser} (hp : FailsWithoutConsuming p) :
    ∀ (n : Nat) (st : ParseState) (e : ParseErr) (st₁ : ParseState),
      many1F p n st = some (.err e, st₁) → p st = some (.err e, st₁) := by
  intro n
  induction n with
  | zero =>
    intro st e st₁ h
    rw [many1F_zero] at h
    exact absurd h (by simp)
  | succ n ih =>
    intro st e st₁ h
    rw [many1F_succ] at h
    unfold bind at h
    cases hps : p st with
    | none => rw [hps] at h; exact absurd h (by simp)
    | some r =>
      obtain ⟨out, st₂⟩ := r
      cases out with
      | err e₂ =>
        rw [hps] at h
        dsimp only at h
        simp only [Option.some.injEq, Prod.mk.injEq, Outcome.err.injEq] at h
        rw [h.1, h.2]
      | ok x =>
        rw [hps] at h
        dsimp only at h
        exfalso
        cases hE : Either (many1F p n) (Return (.list [])) st₂ with
        | none => rw [hE] at h; exact absurd h (by simp)
        | some r2 =>
          obtain ⟨out2, st₃⟩ := r2
          cases out2 with
          | err e₃ =>
            unfold Either at hE
            cases hM : many1F p n st₂ with
            | none => rw [hM] at hE; exact absurd hE (by simp)
            | some r3 =>
              obtain ⟨out3, st₄⟩ := r3
              cases out3 with
              | ok y => rw [hM] at hE; simp at hE
              | err e₄ =>
                have hfirst := ih st₂ e₄ st₄ hM
                have hpos : st₄.pos = st₂.pos := hp st₂ e₄ st₄ hfirst
                rw [hM] at hE
                dsimp only at hE
                simp only [hpos, if_true] at hE
                simp [Return] at hE
          | ok xs =>
            rw [hE] at h
            dsimp only at h
            cases hap : appendx x xs with
            | none => simp [retOpt, hap] at h
            | some v => simp [retOpt, hap, Return] at h

theorem many1F_of_first_err {p : Parser} (n : Nat) {st : ParseState}
    {e : ParseErr} {st₁ : ParseState} (h : p st = some (.err e, st₁)) :
    many1F p (n + 1) st = some (.err e, st₁) := by
  rw [many1F_succ]
  unfold bind
  rw [h]

/-- When the argument parser only fails with zero consumption, every
terminating run of `Many` succeeds. -/
theorem manyF_no_err {p : Parser} (hp : FailsWithoutConsuming p)
    (n : Nat) (st : ParseState) :
    ∀ r st₁, manyF p n st = some (r, st₁) → ∃ v, r = .ok v := by
  intro r st₁ h
  unfold manyF Either at h
  cases hM : many1F p n st with
  | none => rw [hM] at h; exact absurd h (by simp)
  | some r2 =>
    obtain ⟨out2, st₂⟩ := r2
    cases out2 with
    | ok x =>
      rw [hM] at h
      simp only [Option.some.injEq, Prod.mk.injEq] at h
      exact ⟨x, h.1.symm⟩
    | err e =>
      have hfirst := many1F_err_first hp n st e st₂ hM
      have hpos : st₂.pos = st.pos := hp st e st₂ hfirst
      rw [hM] at h
      simp only [hpos, if_true] at h
      simp only [Return, Option.some.injEq, Prod.mk.injEq] at h
      exact ⟨.list [], h.1.symm⟩

/-- Every run of `OneOf` ends in the state produced by its single `next`
call, whether it succeeds or fails. -/
theorem oneOf_state (set : List Byte) (st : ParseState) :
    ∀ r st₁, OneOf set st = some (r, st₁) →
      st₁ = (next st (fun c => set.contains c)).2.2 := by
  intro r st₁ h
  unfold OneOf at h
  rcases hn : next st (fun c => set.contains c) with ⟨x, b, st₂⟩
  rw [hn] at h
  cases b <;> simp_all

/-- Every run of `Spaces = Skip(Space)` ends in the state of the single
`next` call made by its one application of `Space`. -/
theorem spaces_state (st : ParseState) :
    ∀ r st₁, Spaces st = some (r, st₁) →
      st₁ = (next st (fun c => (bytes " \t").contains c)).2.2 := by
  intro r st₁ h
  unfold Spaces Skip OrP Either Then at h
  cases hs : Space st with
  | none => rw [hs] at h; exact absurd h (by simp)
  | some r2 =>
    obtain ⟨out2, st₂⟩ := r2
    have hst₂ : st₂ = (next st (fun c => (bytes " \t").contains c)).2.2 :=
      oneOf_state (bytes " \t") st out2 st₂ hs
    rw [hs] at h
    cases out2 with
    | ok x =>
      simp only [Return, Option.some.injEq, Prod.mk.injEq] at h
      rw [← h.2, hst₂]
    | err e =>
      by_cases hpos : st₂.pos = st.pos
      · simp only [hpos, if_true, Return, Option.some.injEq, Prod.mk.injEq] at h
        rw [← h.2, hst₂]
      · simp only [hpos, if_false, Option.some.injEq, Prod.mk.injEq] at h
        rw [← h.2, hst₂]

/-! ### The closure of parsers built from the library, and its cursor
invariant -/

theorem good_next (st : ParseState) (pred : Byte → Bool)
    (h : st.pos ≤ st.source.length) :
    (next st pred).2.2.source = st.source
  ∧ (next st pred).2.2.pos ≤ (next st pred).2.2.source.length
  ∧ st.line ≤ (next st pred).2.2.line := by
  obtain ⟨hsrc, hline, hpos⟩ := next_cases st pred
  refine ⟨hsrc, ?_, hline⟩
  rw [hsrc]
  rcases hpos with heq | ⟨hlt, hpos⟩
  · rw [heq]; exact h
  · rw [hpos]; exact hlt

theorem good_return (x : Value) : Good (Return x) := by
  intro st r st₁ hpos h
  simp only [Return, Option.some.injEq, Prod.mk.injEq] at h
  rw [← h.2]
  exact ⟨rfl, hpos, le_refl _⟩

theorem good_fail (msg : String) : Good (Fail msg) := by
  intro st r st₁ hpos h
  simp only [Fail, Option.some.injEq, Prod.mk.injEq] at h
  rw [← h.2]
  exact ⟨rfl, hpos, le_refl _⟩

/-- Every primitive built on a single `next` call is `Good`. -/
theorem good_of_next_shape (p : Parser) (pred : Byte → Bool)
    (hshape : ∀ st r st₁, p st = some (r, st₁) → st₁ = (next st pred).2.2) :
    Good p := by
  intro st r st₁ hpos h
  rw [hshape st r st₁ h]
  exact good_next st pred hpos

theorem anyChar_state (st : ParseState) :
    ∀ r st₁, AnyChar st = some (r, st₁) → st₁ = (next st (fun _ => true)).2.2 := by
  intro r st₁ h
  unfold AnyChar at h
  rcases hn : next st (fun _ => true) with ⟨x, b, st₂⟩
  rw [hn] at h
  cases b <;> simp_all

theorem eof_state (st : ParseState) :
    ∀ r st₁, Eof st = some (r, st₁) → st₁ = (next st (fun _ => true)).2.2 := by
  intro r st₁ h
  unfold Eof at h
  rcases hn : next st (fun _ => true) with ⟨x, b, st₂⟩
  rw [hn] at h
  cases b <;> simp_all

theorem charP_state (c : Byte) (st : ParseState) :
    ∀ r st₁, CharP c st = some (r, st₁) → st₁ = (next st (fun b => b == c)).2.2 := by
  intro r st₁ h
  unfold CharP at h
  rcases hn : next st (fun b => b == c) with ⟨x, b, st₂⟩
  rw [hn] at h
  cases b <;> simp_all

theorem noneOf_state (set : List Byte) (st : ParseState) :
    ∀ r st₁, NoneOf set st = some (r, st₁) →
      st₁ = (next st (fun c => !set.contains c)).2.2 := by
  intro r st₁ h
  unfold NoneOf at h
  rcases hn : next st (fun c => !set.contains c) with ⟨x, b, st₂⟩
  rw [hn] at h
  cases b <;> simp_all

theorem good_stringLoop (s : String) (oldPos : Nat) :
    ∀ (cs : List Byte) (st : ParseState) (r : Outcome) (st₁ : ParseState),
      oldPos ≤ st.source.length → st.pos ≤ st.source.length →
      stringLoop s oldPos cs st = some (r, st₁) →
      st₁.source = st.source ∧ st₁.pos ≤ st₁.source.length
        ∧ st.line ≤ st₁.line := by
  intro cs
  induction cs with
  | nil =>
    intro st r st₁ hold hpos h
    simp only [stringLoop, Option.some.injEq, Prod.mk.injEq] at h
    rw [← h.2]
    exact ⟨rfl, hpos, le_refl _⟩
  | cons c cs ih =>
    intro st r st₁ hold hpos h
    unfold stringLoop at h
    rcases hn : next st (fun b => b == c) with ⟨x, b, st₂⟩
    rw [hn] at h
    cases b with
    | true =>
      have hg := good_next st (fun b => b == c) hpos
      rw [hn] at hg
      obtain ⟨hsrc, hpos₂, hline₂⟩ := hg
      have hrec := ih st₂ r st₁ (hsrc ▸ hold) (hsrc ▸ hpos₂) h
      exact ⟨hrec.1.trans hsrc, hrec.2.1, le_trans hline₂ hrec.2.2⟩
    | false =>
      have hst : st₂ = st := next_false_state hn
      rw [hst] at h
      have h2 : ({ st with pos := oldPos } : ParseState) = st₁ := by
        simpa [stringLoop] using congrArg (fun q => q.map Prod.snd) h
      rw [← h2]
      exact ⟨rfl, hold, le_refl _⟩

theorem good_stringP (s : String) : Good (StringP s) := by
  intro st r st₁ hpos h
  exact good_stringLoop s st.pos (bytes s) st r st₁ hpos hpos h

theorem good_bind {p : Parser} {f : Value → Parser}
    (hp : Good p) (hf : ∀ x, Good (f x)) : Good (bind p f) := by
  intro st r st₁ hpos h
  unfold bind at h
  cases hps : p st with
  | none => rw [hps] at h; exact absurd h (by simp)
  | some r2 =>
    obtain ⟨out2, st₂⟩ := r2
    rw [hps] at h
    cases out2 with
    | err e =>
      simp only [Option.some.injEq, Prod.mk.injEq] at h
      rw [← h.2]
      exact hp st (.err e) st₂ hpos hps
    | ok x =>
      obtain ⟨hsrc, hpos₂, hline₂⟩ := hp st (.ok x) st₂ hpos hps
      obtain ⟨hsrc₁, hpos₁, hline₁⟩ :=
        hf x st₂ r st₁ (hsrc ▸ hpos₂) h
      exact ⟨hsrc₁.trans hsrc, hpos₁, le_trans hline₂ hline₁⟩

theorem good_then {p1 p2 : Parser} (hp1 : Good p1) (hp2 : Good p2) :
    Good (Then p1 p2) := by
  intro st r st₁ hpos h
  unfold Then at h
  cases hps : p1 st with
  | none => rw [hps] at h; exact absurd h (by simp)
  | some r2 =>
    obtain ⟨out2, st₂⟩ := r2
    rw [hps] at h
    cases out2 with
    | err e =>
      simp only [Option.some.injEq, Prod.mk.injEq] at h
      rw [← h.2]
      exact hp1 st (.err e) st₂ hpos hps
    | ok x =>
      obtain ⟨hsrc, hpos₂, hline₂⟩ := hp1 st (.ok x) st₂ hpos hps
      obtain ⟨hsrc₁, hpos₁, hline₁⟩ :=
        hp2 st₂ r st₁ (hsrc ▸ hpos₂) h
      exact ⟨hsrc₁.trans hsrc, hpos₁, le_trans hline₂ hline₁⟩

theorem good_either {p1 p2 : Parser} (hp1 : Good p1) (hp2 : Good p2) :
    Good (Either p1 p2) := by
  intro st r st₁ hpos h
  unfold Either at h
  cases hps : p1 st with
  | none => rw [hps] at h; exact absurd h (by simp)
  | some r2 =>
    obtain ⟨out2, st₂⟩ := r2
    rw [hps] at h
    cases out2 with
    | ok x =>
      simp only [Option.some.injEq, Prod.mk.injEq] at h
      rw [← h.2]
      exact hp1 st (.ok x) st₂ hpos hps
    | err e =>
      obtain ⟨hsrc, hpos₂, hline₂⟩ := hp1 st (.err e) st₂ hpos hps
      by_cases hb : st₂.pos = st.pos
      · simp only [hb, if_true] at h
        obtain ⟨hsrc₁, hpos₁, hline₁⟩ :=
          hp2 st₂ r st₁ (hsrc ▸ hpos₂) h
        exact ⟨hsrc₁.trans hsrc, hpos₁, le_trans hline₂ hline₁⟩
      · simp only [hb, if_false, Option.some.injEq, Prod.mk.injEq] at h
        rw [← h.2]
        exact ⟨hsrc, hpos₂, hline₂⟩

theorem good_try {p : Parser} (hp : Good p) : Good (Try p) := by
  intro st r st₁ hpos h
  unfold Try at h
  cases hps : p st with
  | none => rw [hps] at h; exact absurd h (by simp)
  | some r2 =>
    obtain ⟨out2, st₂⟩ := r2
    rw [hps] at h
    cases out2 with
    | ok x =>
      simp only [Option.some.injEq, Prod.mk.injEq] at h
      rw [← h.2]
      exact hp st (.ok x) st₂ hpos hps
    | err e =>
      obtain ⟨hsrc, hpos₂, hline₂⟩ := hp st (.err e) st₂ hpos hps
      simp only [Option.some.injEq, Prod.mk.injEq] at h
      rw [← h.2]
      exact ⟨hsrc, by rw [hsrc]; exact hpos, hline₂⟩

/-- Every parser built from the library's primitives and combinators is
`Good`. -/
theorem built_good : ∀ p : Parser, Built p → Good p := by
  intro p hb
  induction hb with
  | ret x => exact good_return x
  | failP msg => exact good_fail msg
  | anyChar => exact good_of_next_shape AnyChar (fun _ => true) anyChar_state
  | eofP => exact good_of_next_shape Eof (fun _ => true) eof_state
  | charP c => exact good_of_next_shape (CharP c) (fun b => b == c) (charP_state c)
  | oneOf set =>
    exact good_of_next_shape (OneOf set) (fun c => set.contains c) (oneOf_state set)
  | noneOf set =>
    exact good_of_next_shape (NoneOf set) (fun c => !set.contains c) (noneOf_state set)
  | stringP s => exact good_stringP s
  | bindP p f hp hf ihp ihf => exact good_bind ihp ihf
  | thenP p1 p2 hp1 hp2 ih1 ih2 => exact good_then ih1 ih2
  | eitherP p1 p2 hp1 hp2 ih1 ih2 => exact good_either ih1 ih2
  | tryP p hp ih => exact good_try ih
  | divergeP => intro st r st₁ hpos h; exact absurd h (by simp)

/-! `Built` closes over all the derived combinators of the library. -/

theorem built_orP {p1 p2 : Parser} (h1 : Built p1) (h2 : Built p2) :
    Built (OrP p1 p2) :=
  Built.eitherP p1 p2 h1 h2

theorem built_retOpt (o : Option Value) : Built (retOpt o) := by
  cases o with
  | none => exact Built.divergeP
  | some v => exact Built.ret v

theorem built_toString {p : Parser} (hp : Built p) : Built (ToString p) := by
  refine Built.bindP p toStringK hp ?_
  intro x
  cases x with
  | list xs =>
    cases h : asBytes xs with
    | none =>
      have heq : toStringK (.list xs) = fun _ => none := by
        unfold toStringK
        dsimp only
        rw [h]
      rw [heq]
      exact Built.divergeP
    | some bs =>
      have heq : toStringK (.list xs) = Return (.str (strOf bs)) := by
        unfold toStringK
        dsimp only
        rw [h]
      rw [heq]
      exact Built.ret _
  | vnil => exact Built.divergeP
  | byte b => exact Built.divergeP
  | str s => exact Built.divergeP

theorem built_many1F {p : Parser} (hp : Built p) :
    ∀ n, Built (many1F p n) := by
  intro n
  induction n with
  | zero => rw [many1F_zero]; exact Built.divergeP
  | succ n ih =>
    rw [many1F_succ]
    refine Built.bindP p _ hp ?_
    intro x
    refine Built.bindP _ _ (Built.eitherP _ _ ih (Built.ret _)) ?_
    intro xs
    exact built_retOpt (appendx x xs)

theorem built_manyF {p : Parser} (hp : Built p) (n : Nat) :
    Built (manyF p n) :=
  Built.eitherP _ _ (built_many1F hp n) (Built.ret _)

theorem built_manyTillF {p pend : Parser} (hp : Built p) (he : Built pend) :
    ∀ n, Built (manyTillF p pend n) := by
  intro n
  induction n with
  | zero => exact Built.divergeP
  | succ n ih =>
    rw [manyTillF_succ]
    refine Built.eitherP _ _
      (Built.thenP _ _ (Built.tryP pend he) (Built.ret _)) ?_
    refine Built.bindP p _ hp ?_
    intro x
    refine Built.bindP _ _ ih ?_
    intro xs
    exact built_retOpt (appendx x xs)

theorem built_skip {p : Parser} (hp : Built p) : Built (Skip p) :=
  built_orP (Built.thenP _ _ hp (Built.ret _)) (Built.ret _)

theorem built_skipManyF {p : Parser} (hp : Built p) (n : Nat) :
    Built (SkipManyF p n) :=
  built_skip (built_manyF hp n)

theorem built_between {p start pend : Parser}
    (hp : Built p) (hs : Built start) (he : Built pend) :
    Built (Between p start pend) :=
  Built.thenP _ _ hs (Built.bindP p _ hp
    (fun x => Built.thenP _ _ he (Built.ret x)))

theorem built_sepBy1F {p sep : Parser} (hp : Built p) (hs : Built sep)
    (n : Nat) : Built (SepBy1F p sep n) := by
  refine Built.bindP p _ hp ?_
  intro x
  refine Built.bindP _ _ (built_manyF (Built.thenP _ _ hs hp) n) ?_
  intro xs
  exact built_retOpt (appendx x xs)

theorem built_sepByF {p sep : Parser} (hp : Built p) (hs : Built sep)
    (n : Nat) : Built (SepByF p sep n) :=
  built_orP (built_sepBy1F hp hs n) (Built.ret _)

theorem built_letter : Built Letter :=
  Built.eitherP _ _ (Built.oneOf _) (Built.oneOf _)

theorem built_spaces : Built Spaces :=
  built_skip (Built.oneOf _)

theorem built_eol : Built Eol :=
  Built.eitherP _ _ Built.eofP (Built.oneOf _)

/-! ### Claim theorems -/

/-- C1: for every pair of parsers and every cursor state, `Either p1 p2`
returns `p1`'s result when `p1` succeeds; when `p1` fails with the position
unchanged from before the attempt it returns exactly what `p2` returns run
from that same position; when `p1` fails after the position advanced it
returns `p1`'s failure, and the result does not depend on `p2` (`p2` is
never run). -/
theorem either_bounded_backtracking (p1 p2 : Parser) (st : ParseState) :
    (∀ x st', p1 st = some (.ok x, st') →
      Either p1 p2 st = some (.ok x, st'))
  ∧ (∀ e st', p1 st = some (.err e, st') → st'.pos = st.pos →
      Either p1 p2 st = p2 st')
  ∧ (∀ e st', p1 st = some (.err e, st') → st'.pos ≠ st.pos →
      Either p1 p2 st = some (.err e, st')) :=
  ⟨fun _ _ h => either_of_ok p2 h,
   fun _ _ h hpos => either_of_err_zero p2 h hpos,
   fun _ _ h hpos => either_of_err_moved p2 h hpos⟩

/-- Witness for C1: on input `"b"`, `Char('a')` fails without consuming, so
`Either(Char('a'), Char('b'))` is exactly `Char('b')` run from the same
place; and a parser failing after consuming (`'a'` then `'b'` on `"ax"`)
makes `Either` propagate that failure. -/
theorem either_bounded_backtracking_witness :
    (Either (CharP 97) (CharP 98) ⟨bytes "b", 0, 1⟩
        = CharP 98 ⟨bytes "b", 0, 1⟩)
  ∧ (Either (Then (CharP 97) (CharP 98)) (CharP 97) ⟨bytes "ax", 0, 1⟩
        = some (.err ⟨"Expected \x27b\x27", 1⟩, ⟨bytes "ax", 1, 1⟩))
  ∧ (Either (CharP 97) (CharP 98) ⟨bytes "ab", 0, 1⟩
        = some (.ok (.byte 97), ⟨bytes "ab", 1, 1⟩)) :=
  ⟨(either_bounded_backtracking (CharP 97) (CharP 98) ⟨bytes "b", 0, 1⟩).2.1
      ⟨"Expected \x27a\x27", 1⟩ ⟨bytes "b", 0, 1⟩ rfl rfl,
   (either_bounded_backtracking (Then (CharP 97) (CharP 98)) (CharP 97)
      ⟨bytes "ax", 0, 1⟩).2.2
      ⟨"Expected \x27b\x27", 1⟩ ⟨bytes "ax", 1, 1⟩ rfl (by decide),
   (either_bounded_backtracking (CharP 97) (CharP 98) ⟨bytes "ab", 0, 1⟩).1
      (.byte 97) ⟨bytes "ab", 1, 1⟩ rfl⟩

/-- C3: run with at least one byte remaining, `Eof` fails reporting the
byte it found and, as a side effect, consumes it: the position advances by
one and the line counter is incremented when that byte is a newline.  With
no byte remaining, `Eof` succeeds with the nil value and leaves the cursor
unchanged. -/
theorem eof_consumes_byte_on_failure (st : ParseState) :
    (∀ h : st.pos < st.source.length,
      Eof st = some (.err
        ⟨eofFoundMsg st.source[st.pos], (consumed st st.source[st.pos]).line⟩,
        consumed st st.source[st.pos])
      ∧ (consumed st st.source[st.pos]).pos = st.pos + 1
      ∧ (consumed st st.source[st.pos]).line
          = (if st.source[st.pos] = 10 then st.line + 1 else st.line))
  ∧ (st.source.length ≤ st.pos → Eof st = some (.ok .vnil, st)) :=
  ⟨fun h => ⟨eof_of_byte h, rfl, rfl⟩, fun h => eof_of_end h⟩

/-- Witness for C3: on `"a"` at position 0, `Eof` fails naming `'a'` and
leaves the cursor at position 1; on a newline byte the line counter becomes
2; at end of input it succeeds and the cursor stays put. -/
theorem eof_consumes_byte_on_failure_witness :
    (Eof ⟨bytes "a", 0, 1⟩
      = some (.err ⟨eofFoundMsg 97, 1⟩, ⟨bytes "a", 1, 1⟩))
  ∧ (Eof ⟨bytes "\nx", 0, 1⟩
      = some (.err ⟨eofFoundMsg 10, 2⟩, ⟨bytes "\nx", 1, 2⟩))
  ∧ (Eof ⟨bytes "a", 1, 1⟩ = some (.ok .vnil, ⟨bytes "a", 1, 1⟩)) :=
  ⟨((eof_consumes_byte_on_failure ⟨bytes "a", 0, 1⟩).1 (by decide)).1,
   ((eof_consumes_byte_on_failure ⟨bytes "\nx", 0, 1⟩).1 (by decide)).1,
   (eof_consumes_byte_on_failure ⟨bytes "a", 1, 1⟩).2 (by decide)⟩

/-- C5: on every cursor with at least one byte remaining — the byte may be
a newline or carriage return — `Eol = Either(Eof, Newline)` fails with
`Eof`'s error and the cursor advanced one byte: `Eof` consumed the byte on
its failure path, so `Either` sees a non-zero-consumption failure and
propagates it without running the second alternative (the result is the
same for any alternative in place of `Newline`).  `Eol` succeeds only at
end of input. -/
theorem eol_fails_whenever_byte_remains (st : ParseState) :
    (∀ h : st.pos < st.source.length,
      Eol st = some (.err
        ⟨eofFoundMsg st.source[st.pos], (consumed st st.source[st.pos]).line⟩,
        consumed st st.source[st.pos])
      ∧ (consumed st st.source[st.pos]).pos = st.pos + 1
      ∧ (∀ q, Either Eof q st = Eol st))
  ∧ (st.source.length ≤ st.pos → Eol st = some (.ok .vnil, st)) := by
  constructor
  · intro h
    have hrun : ∀ q : Parser, Either Eof q st = some (.err
        ⟨eofFoundMsg st.source[st.pos], (consumed st st.source[st.pos]).line⟩,
        consumed st st.source[st.pos]) := by
      intro q
      refine either_of_err_moved q (eof_of_byte h) ?_
      simp [consumed]
    exact ⟨hrun Newline, rfl, fun q => (hrun q).trans (hrun Newline).symm⟩
  · intro h
    exact either_of_ok Newline (eof_of_end h)

/-- Witness for C5: on input `"\nx"` (a real newline first), `Eol` fails
with `Eof`'s error and the cursor lands at position 1 with the line counter
at 2 — it does not succeed on the newline byte; at end of input it
succeeds. -/
theorem eol_fails_whenever_byte_remains_witness :
    (Eol ⟨bytes "\nx", 0, 1⟩
      = some (.err ⟨eofFoundMsg 10, 2⟩, ⟨bytes "\nx", 1, 2⟩))
  ∧ (Eol ⟨bytes "x", 1, 1⟩ = some (.ok .vnil, ⟨bytes "x", 1, 1⟩)) :=
  ⟨((eol_fails_whenever_byte_remains ⟨bytes "\nx", 0, 1⟩).1 (by decide)).1,
   (eol_fails_whenever_byte_remains ⟨bytes "x", 1, 1⟩).2 (by decide)⟩

/-- C4: for every parser and cursor, `Try p` returns the same value and
final cursor as `p` when `p` succeeds; when `p` fails, `Try p` propagates
`p`'s failure with the position reset to its value before `p` started, so a
surrounding `Either` sees a zero-consumption failure and runs its
alternative even when `p` consumed bytes internally before failing. -/
theorem try_full_backtrack (p : Parser) (st : ParseState) :
    (∀ x st', p st = some (.ok x, st') → Try p st = some (.ok x, st'))
  ∧ (∀ e st', p st = some (.err e, st') →
      Try p st = some (.err e, { st' with pos := st.pos })
      ∧ (ParseState.mk st'.source st.pos st'.line).pos = st.pos)
  ∧ (∀ e st' q, p st = some (.err e, st') →
      Either (Try p) q st = q { st' with pos := st.pos }) := by
  refine ⟨fun x st' h => try_of_ok h, fun e st' h => ⟨try_of_err h, rfl⟩,
    fun e st' q h => ?_⟩
  exact either_of_err_zero q (try_of_err h) rfl

/-- Witness for C4: `Char('a')` then `Char('b')` on `"ax"` consumes one
byte and fails; `Try` of it fails with the position back at 0, and an
`Either` around it runs the alternative from there. -/
theorem try_full_backtrack_witness :
    (Try (Then (CharP 97) (CharP 98)) ⟨bytes "ax", 0, 1⟩
        = some (.err ⟨"Expected \x27b\x27", 1⟩, ⟨bytes "ax", 0, 1⟩))
  ∧ (Either (Try (Then (CharP 97) (CharP 98))) AnyChar ⟨bytes "ax", 0, 1⟩
        = AnyChar ⟨bytes "ax", 0, 1⟩) :=
  ⟨((try_full_backtrack (Then (CharP 97) (CharP 98)) ⟨bytes "ax", 0, 1⟩).2.1
      ⟨"Expected \x27b\x27", 1⟩ ⟨bytes "ax", 1, 1⟩ rfl).1,
   (try_full_backtrack (Then (CharP 97) (CharP 98)) ⟨bytes "ax", 0, 1⟩).2.2
      ⟨"Expected \x27b\x27", 1⟩ ⟨bytes "ax", 1, 1⟩ AnyChar rfl⟩

/-- C2 counterexample: with `P = Char('a').Then(Char('b'))` on input
`"abac"`, the first application of `P` succeeds (consuming `"ab"`), yet
both `Many(P)` and `Many1(P)` fail: the second application of `P` fails at
position 3 after consuming the `'a'`, a partial-consumption failure that
the choice inside the repetition propagates.  This refutes both halves of
the claim: `Many(P)` fails here, and `Many1(P)` fails although its first
application of `P` succeeded. -/
theorem many_fails_after_partial_consumption :
    (Then (CharP 97) (CharP 98) ⟨bytes "abac", 0, 1⟩
        = some (.ok (.byte 98), ⟨bytes "abac", 2, 1⟩))
  ∧ (manyF (Then (CharP 97) (CharP 98)) 5 ⟨bytes "abac", 0, 1⟩
        = some (.err ⟨"Expected \x27b\x27", 1⟩, ⟨bytes "abac", 3, 1⟩))
  ∧ (many1F (Then (CharP 97) (CharP 98)) 5 ⟨bytes "abac", 0, 1⟩
        = some (.err ⟨"Expected \x27b\x27", 1⟩, ⟨bytes "abac", 3, 1⟩)) :=
  ⟨rfl, rfl, rfl⟩

/-- C2 (amended): for every parser `P` that fails only with zero
consumption, and every input: every terminating run of `Many(P)` succeeds,
and a terminating run of `Many1(P)` fails exactly when the first
application of `P` fails, with that same error. -/
theorem repetition_totality_zero_consumption (p : Parser)
    (hp : FailsWithoutConsuming p) (n : Nat) (st : ParseState) :
    (∀ r st₁, manyF p n st = some (r, st₁) → ∃ v, r = .ok v)
  ∧ (∀ e st₁, many1F p (n + 1) st = some (.err e, st₁) →
      p st = some (.err e, st₁))
  ∧ (∀ e st₁, p st = some (.err e, st₁) →
      many1F p (n + 1) st = some (.err e, st₁)) :=
  ⟨manyF_no_err hp n st,
   fun e st₁ h => many1F_err_first hp (n + 1) st e st₁ h,
   fun _ _ h => many1F_of_first_err n h⟩

/-- Witness for C2 (amended): `Char('a')` fails only with zero
consumption; on input `"b"`, `Many1(Char('a'))` fails with exactly the
error of the first application, and `Many(Char('a'))` succeeds with the
empty slice. -/
theorem repetition_totality_zero_consumption_witness :
    (many1F (CharP 97) 1 ⟨bytes "b", 0, 1⟩
        = some (.err ⟨"Expected \x27a\x27", 1⟩, ⟨bytes "b", 0, 1⟩))
  ∧ (manyF (CharP 97) 1 ⟨bytes "b", 0, 1⟩
        = some (.ok (.list []), ⟨bytes "b", 0, 1⟩)) :=
  ⟨(repetition_totality_zero_consumption (CharP 97)
      (charP_fails_without_consuming 97) 0 ⟨bytes "b", 0, 1⟩).2.2
      ⟨"Expected \x27a\x27", 1⟩ ⟨bytes "b", 0, 1⟩ rfl,
   rfl⟩

/-- C6 counterexample: on input `"  x"` the maximal leading run of space
and tab bytes has length 2, but `Spaces = Skip(Space)` consumes exactly one
byte (final position 1, not 2), while one-or-more of `Space` with the value
discarded consumes both.  `Skip(P)` therefore does not behave like
one-or-more of `P` discarded, and `Spaces` does not consume the entire
maximal run. -/
theorem spaces_single_byte_counterexample :
    (Spaces ⟨bytes "  x", 0, 1⟩ = some (.ok .vnil, ⟨bytes "  x", 1, 1⟩))
  ∧ (((bytes "  x").takeWhile (fun b => b == 32 || b == 9)).length = 2)
  ∧ (Then (many1F Space 5) (Return .vnil) ⟨bytes "  x", 0, 1⟩
        = some (.ok .vnil, ⟨bytes "  x", 2, 1⟩))
  ∧ (1 : Nat) ≠ 2 :=
  ⟨rfl, by decide, rfl, by decide⟩

/-- C6 (amended): `Skip(P)` runs `P` exactly once and discards its value:
when `P` succeeds it succeeds with the nil value from `P`'s final state;
when `P` fails with zero consumption it succeeds with the nil value; when
`P` fails after partial consumption, `Skip(P)` fails with `P`'s error.  In
particular `Spaces = Skip(Space)` consumes at most one leading space or
tab byte. -/
theorem skip_runs_inner_parser_once (p : Parser) (st : ParseState) :
    (∀ x st₁, p st = some (.ok x, st₁) → Skip p st = some (.ok .vnil, st₁))
  ∧ (∀ e st₁, p st = some (.err e, st₁) → st₁.pos = st.pos →
      Skip p st = some (.ok .vnil, st₁))
  ∧ (∀ e st₁, p st = some (.err e, st₁) → st₁.pos ≠ st.pos →
      Skip p st = some (.err e, st₁))
  ∧ (∀ (st₀ : ParseState) (r : Outcome) (st₁ : ParseState),
      Spaces st₀ = some (r, st₁) → st₁.pos ≤ st₀.pos + 1) := by
  refine ⟨?_, ?_, ?_, ?_⟩
  · intro x st₁ h
    have hthen : Then p (Return .vnil) st = some (.ok .vnil, st₁) := by
      unfold Then
      rw [h]
      rfl
    exact either_of_ok (Return .vnil) hthen
  · intro e st₁ h hpos
    have hthen : Then p (Return .vnil) st = some (.err e, st₁) := by
      unfold Then
      rw [h]
    exact either_of_err_zero (Return .vnil) hthen hpos
  · intro e st₁ h hpos
    have hthen : Then p (Return .vnil) st = some (.err e, st₁) := by
      unfold Then
      rw [h]
    exact either_of_err_moved (Return .vnil) hthen hpos
  · intro st₀ r st₁ h
    have hst := spaces_state st₀ r st₁ h
    rcases (next_cases st₀ (fun c => (bytes " \t").contains c)).2.2 with
      heq | ⟨_, hpos⟩
    · rw [hst, heq]
      exact Nat.le_succ _
    · rw [hst, hpos]

/-- Witness for C6 (amended): `Space` on `"x"` fails without consuming, so
`Spaces` succeeds in place; and the run of `Spaces` on `"  x"` lands within
one byte of its start. -/
theorem skip_runs_inner_parser_once_witness :
    (Spaces ⟨bytes "x", 0, 1⟩ = some (.ok .vnil, ⟨bytes "x", 0, 1⟩))
  ∧ ((ParseState.mk (bytes "  x") 1 1).pos
      ≤ (ParseState.mk (bytes "  x") 0 1).pos + 1) :=
  ⟨(skip_runs_inner_parser_once Space ⟨bytes "x", 0, 1⟩).2.1
      ⟨"Expected one of \x27 \t\x27 but got \x27x\x27", 1⟩
      ⟨bytes "x", 0, 1⟩ rfl rfl,
   (skip_runs_inner_parser_once Space ⟨bytes "x", 0, 1⟩).2.2.2
      ⟨bytes "  x", 0, 1⟩ (.ok .vnil) ⟨bytes "  x", 1, 1⟩ rfl⟩

/-- C8: every parser built from the library's primitives and combinators,
run from a cursor whose position is within the source, returns (on success
or failure) a cursor whose position is still within the source, with the
line counter never decreased.  (Positions are naturals, so `0 ≤ pos` holds
throughout; the source list is also unchanged.) -/
theorem built_cursor_invariant (p : Parser) (hb : Built p)
    (st : ParseState) (r : Outcome) (st₁ : ParseState)
    (hpos : st.pos ≤ st.source.length) (hrun : p st = some (r, st₁)) :
    st₁.pos ≤ st₁.source.length ∧ st.line ≤ st₁.line
      ∧ st₁.source = st.source := by
  obtain ⟨hsrc, hp, hl⟩ := built_good p hb st r st₁ hpos hrun
  exact ⟨hp, hl, hsrc⟩

/-- Witness for C8: the built parser `Eol` run on `"\nx"` fails after
consuming the newline, and the final cursor is still within bounds with
the line counter grown from 1 to 2. -/
theorem built_cursor_invariant_witness :
    ((ParseState.mk (bytes "\nx") 1 2).pos
        ≤ (ParseState.mk (bytes "\nx") 1 2).source.length
      ∧ (ParseState.mk (bytes "\nx") 0 1).line
        ≤ (ParseState.mk (bytes "\nx") 1 2).line
      ∧ (ParseState.mk (bytes "\nx") 1 2).source
        = (ParseState.mk (bytes "\nx") 0 1).source) :=
  built_cursor_invariant Eol built_eol ⟨bytes "\nx", 0, 1⟩
    (.err ⟨eofFoundMsg 10, 2⟩) ⟨bytes "\nx", 1, 2⟩ (by decide) rfl

/-- C9: the README's CSV parser —
`Many(NoneOf(",\n")).ToString()` separated by `','` separated by `'\n'` —
applied to `"foo,bar\nhello,world,123"` succeeds and yields the two-level
ordered sequence `[["foo","bar"], ["hello","world","123"]]` (final
position 23, final line 2; fuel 30 is ample for this input). -/
theorem csv_roundtrip :
    Parse (SepByF (SepByF (ToString (manyF (NoneOf (bytes ",\n")) 30))
        (CharP 44) 30) (CharP 10) 30)
      (bytes "foo,bar\nhello,world,123")
    = some (.ok (.list [
        .list [.str "foo", .str "bar"],
        .list [.str "hello", .str "world", .str "123"]]),
      ⟨bytes "foo,bar\nhello,world,123", 23, 2⟩) := rfl

/-- C7: `String("abc")` on `"abcd"` succeeds with `"abc"` leaving the
cursor at offset 3; on `"abx"` it fails and restores the cursor position to
offset 0; in general `String(s)` on failure restores the position to where
matching started. -/
theorem string_literal_matching :
    (StringP "abc" ⟨bytes "abcd", 0, 1⟩
        = some (.ok (.str "abc"), ⟨bytes "abcd", 3, 1⟩))
  ∧ (StringP "abc" ⟨bytes "abx", 0, 1⟩
        = some (.err ⟨"Expected \x27abc\x27", 1⟩, ⟨bytes "abx", 0, 1⟩))
  ∧ (∀ (s : String) (st : ParseState) (e : ParseErr) (st₁ : ParseState),
      StringP s st = some (.err e, st₁) → st₁.pos = st.pos) :=
  ⟨rfl, rfl,
   fun s st e st₁ h => (stringLoop_err s st.pos (bytes s) st e st₁ h).1⟩

/-- Witness for C7: `String("bc")` started at offset 1 of `"abx"` consumes
the `'b'`, fails on `'x'`, and ends with the position restored to 1. -/
theorem string_literal_matching_witness :
    (StringP "bc" ⟨bytes "abx", 1, 1⟩
        = some (.err ⟨"Expected \x27bc\x27", 1⟩, ⟨bytes "abx", 1, 1⟩))
  ∧ (ParseState.mk (bytes "abx") 1 1).pos = (ParseState.mk (bytes "abx") 1 1).pos :=
  ⟨rfl,
   string_literal_matching.2.2 "bc" ⟨bytes "abx", 1, 1⟩
     ⟨"Expected \x27bc\x27", 1⟩ ⟨bytes "abx", 1, 1⟩ rfl⟩

/-- C10: `Try` and `String` restore only the position on backtracking,
never the line counter.  In general `Try p` on failure returns the failing
state with only `pos` replaced (the line stays at the inner parser's final
value), and `String` on failure restores the position while the line keeps
its increments.  Concretely, `Try(Char('\n').Then(Char('a')))` on `"\nb"`
resets the position to 0 yet leaves the line at 2, which exceeds one plus
the number of newlines before position 0, and re-consuming the same
newline counts it again (line 3); `String("\na")` on `"\nb"` likewise ends
at position 0 with line 2. -/
theorem backtrack_keeps_line_increments :
    (∀ (p : Parser) (st : ParseState) (e : ParseErr) (st₁ : ParseState),
      p st = some (.err e, st₁) →
      Try p st = some (.err e, ParseState.mk st₁.source st.pos st₁.line))
  ∧ (∀ (s : String) (st : ParseState) (e : ParseErr) (st₁ : ParseState),
      StringP s st = some (.err e, st₁) →
      st₁.pos = st.pos ∧ st.line ≤ st₁.line)
  ∧ (Try (Then (CharP 10) (CharP 97)) ⟨bytes "\nb", 0, 1⟩
      = some (.err ⟨"Expected \x27a\x27", 2⟩, ⟨bytes "\nb", 0, 2⟩))
  ∧ (1 + newlinesBefore (bytes "\nb") 0 < 2)
  ∧ (AnyChar ⟨bytes "\nb", 0, 2⟩ = some (.ok (.byte 10), ⟨bytes "\nb", 1, 3⟩))
  ∧ (StringP "\na" ⟨bytes "\nb", 0, 1⟩
      = some (.err ⟨"Expected \x27\na\x27", 2⟩, ⟨bytes "\nb", 0, 2⟩)) :=
  ⟨fun p st e st₁ h => try_of_err h,
   fun s st e st₁ h => stringLoop_err s st.pos (bytes s) st e st₁ h,
   rfl, by decide, rfl, rfl⟩

/-- Witness for C10: the general `Try` and `String` facts applied to the
concrete newline-consuming runs above. -/
theorem backtrack_keeps_line_increments_witness :
    (Try (StringP "\na") ⟨bytes "\nb", 0, 1⟩
        = some (.err ⟨"Expected \x27\na\x27", 2⟩, ⟨bytes "\nb", 0, 2⟩))
  ∧ ((ParseState.mk (bytes "\nb") 0 2).pos
        = (ParseState.mk (bytes "\nb") 0 1).pos
      ∧ (ParseState.mk (bytes "\nb") 0 1).line
        ≤ (ParseState.mk (bytes "\nb") 0 2).line) :=
  ⟨backtrack_keeps_line_increments.1 (StringP "\na") ⟨bytes "\nb", 0, 1⟩
      ⟨"Expected \x27\na\x27", 2⟩ ⟨bytes "\nb", 0, 2⟩ rfl,
   backtrack_keeps_line_increments.2.1 "\na" ⟨bytes "\nb", 0, 1⟩
      ⟨"Expected \x27\na\x27", 2⟩ ⟨bytes "\nb", 0, 2⟩ rfl⟩

end Gopar
